import Mathlib

/-!
Shallow embedding of the round-robin HTTP load balancer (`src/main.go`).

The Go program keeps a global `ServerPool` (an ordered slice of backends and
a `uint64` rotation cursor), selects the next alive backend with
`NextIndex`/`GetNext`, forwards requests via a reverse proxy whose error
callback implements the retry/failover policy, and runs a periodic health
check that flips each backend's liveness flag.

Modelling conventions:
* `url.URL` is modelled by its string form (`MarkBackendStatus` compares
  backends by `URL.String()` equality, so the string is all that matters).
* The `uint64` cursor is a `Nat` reduced modulo `2 ^ 64` exactly where Go's
  `atomic.AddUint64` wraps.
* Go panics (the `% 0` in `NextIndex` on an empty pool) are modelled by
  `Option`: `none` is the panic.
* The request context (`context.WithValue` under the keys `Attempts` and
  `Retry`) is modelled by a record of two `Option Nat` fields; an absent key
  reads as `0`, exactly as `GetRetryFromContext` / `GetAttemptsFromContext` do.
* Network effects (the probe in `isBackendAlive`, the proxy's transport) are
  oracles passed in as parameters; the health-check tick applies the probe
  outcome to every backend just as `ServerPool.HealthCheck` does.
-/

namespace LoadBalancerGo

/-- `const MAX_RETRIES = 3` in `main.go`; it bounds both the in-place retries
and (in `LoadBalance`) the reroute attempts. -/
def MAX_RETRIES : Nat := 3

/-- `uint64` arithmetic in `NextIndex` wraps modulo `2 ^ 64`. -/
def UINT64_MOD : Nat := 2 ^ 64

/-- `type Backend struct { URL *url.URL; Alive bool; ... }`: the reverse
proxy and mutex carry no sequential state beyond the error callback, which
is modelled separately. -/
structure Backend where
  url : String
  alive : Bool
deriving Repr, DecidableEq

/-- `type ServerPool struct { backends []*Backend; current uint64 }`. -/
structure ServerPool where
  backends : List Backend
  current : Nat
deriving Repr, DecidableEq

/-- `func (s *ServerPool) NextIndex() int`:
`int(atomic.AddUint64(&s.current, uint64(1)) % uint64(len(s.backends)))`.
The atomic add stores the incremented (wrapped) value in `current` and the
returned index is that new value modulo the pool size.  With an empty pool
Go divides by zero and panics: that is the `none` branch. -/
def ServerPool.NextIndex (s : ServerPool) : Option (Nat × ServerPool) :=
  if s.backends.length = 0 then none
  else
    let current' := (s.current + 1) % UINT64_MOD
    some (current' % s.backends.length, { s with current := current' })

/-- The scan inside `GetNext`: `for i := next; i < end; i++` with
`index := i % len(s.backends)`, looking for the first position whose
`IsAlive()` reads true.  Returns the offset `i - next` (so the source's
`i != next` test is `k ≠ 0`).  Every probed index is in bounds, so the
`getD` default is never consulted. -/
def findAliveOffset (backends : List Backend) (next : Nat) : Option Nat :=
  (List.range backends.length).find? fun k =>
    (backends.getD ((next + k) % backends.length) ⟨"", false⟩).alive

/-- `func (s *ServerPool) GetNext() *Backend`: computes the start with
`NextIndex` (outer `none` = the empty-pool panic), scans all positions
wrapping, and on a hit at `i != next` stores the found index into the
cursor (`atomic.StoreUint64(&s.current, uint64(index))`); inner `none` is
Go's `nil` (all backends dead). -/
def ServerPool.GetNext (s : ServerPool) : Option (Option Backend × ServerPool) :=
  s.NextIndex.map fun p =>
    match findAliveOffset p.2.backends p.1 with
    | some k =>
      let index := (p.1 + k) % p.2.backends.length
      (p.2.backends.get? index,
        if k = 0 then p.2 else { p.2 with current := index })
    | none => (none, p.2)

/-- `func (s *ServerPool) AddBackend(b *Backend)`. -/
def ServerPool.AddBackend (s : ServerPool) (b : Backend) : ServerPool :=
  { s with backends := s.backends ++ [b] }

/-- The loop body of `MarkBackendStatus`: set `Alive` on the first backend
whose `URL.String()` equals the given URL's string, then `break`. -/
def markFirst (u : String) (alive : Bool) : List Backend → List Backend
  | [] => []
  | b :: rest =>
    if b.url = u then { b with alive := alive } :: rest
    else b :: markFirst u alive rest

/-- `func (s *ServerPool) MarkBackendStatus(u *url.URL, alive bool)`. -/
def ServerPool.MarkBackendStatus (s : ServerPool) (u : String) (alive : Bool) :
    ServerPool :=
  { s with backends := markFirst u alive s.backends }

/-- The request context as far as the balancer reads it: the values stored
under the `Attempts` and `Retry` keys by `context.WithValue`; `none` means
the key was never set. -/
structure Ctx where
  attempts : Option Nat
  retries : Option Nat
deriving Repr, DecidableEq

/-- `func GetAttemptsFromContext(r *http.Request) int`: the stored value, or
`0` if the key is absent. -/
def GetAttemptsFromContext (c : Ctx) : Nat := c.attempts.getD 0

/-- `func GetRetryFromContext(r *http.Request) int`: the stored value, or
`0` if the key is absent. -/
def GetRetryFromContext (c : Ctx) : Nat := c.retries.getD 0

/-- `context.WithValue(request.Context(), Attempts, n)`: overrides the
`Attempts` key and keeps every other key. -/
def withAttempts (c : Ctx) (n : Nat) : Ctx := { c with attempts := some n }

/-- `context.WithValue(request.Context(), Retry, n)`: overrides the `Retry`
key and keeps every other key. -/
def withRetry (c : Ctx) (n : Nat) : Ctx := { c with retries := some n }

/-- What `LoadBalance` does with one request: answer 503
(`http.Error(w, "Server unavailable.", http.StatusServiceUnavailable)`) or
hand the request to the chosen backend's reverse proxy
(`nextServer.ReverseProxy.ServeHTTP(w, r)`). -/
inductive LBResult where
  | serviceUnavailable : LBResult
  | forwarded : Backend → LBResult
deriving Repr, DecidableEq

/-- `func LoadBalance(w http.ResponseWriter, r *http.Request)`: reads the
`attempts` counter, answers 503 when `attempts > MAX_RETRIES`, otherwise
asks the pool for the next backend, forwarding on success and answering
503 when `GetNext` returned `nil`.  Outer `none` propagates `GetNext`'s
empty-pool panic. -/
def LoadBalance (s : ServerPool) (c : Ctx) : Option (LBResult × ServerPool) :=
  if GetAttemptsFromContext c > MAX_RETRIES then some (.serviceUnavailable, s)
  else
    s.GetNext.map fun r =>
      match r with
      | (some b, s') => (.forwarded b, s')
      | (none, s') => (.serviceUnavailable, s')

/-- One decision of `proxy.ErrorHandler` (the closure installed in
`initializeBackends`): either re-invoke the same proxy with a context
carrying `retries+1`, or mark this backend dead and re-enter `LoadBalance`
with a context carrying `attempts+1`. -/
inductive EHAction where
  | retrySame : Ctx → EHAction
  | failover : Ctx → EHAction
deriving Repr, DecidableEq

/-- `proxy.ErrorHandler` for the backend at `serverUrl`, invoked on one
transport fault with the failing request's context: if
`retries < MAX_RETRIES` it sleeps, builds `ctx` with `Retry = retries+1`
and re-invokes the same proxy; otherwise it calls
`serverPool.MarkBackendStatus(serverUrl, false)`, builds `ctx` with
`Attempts = attempts+1` and calls `LoadBalance` again. -/
def ErrorHandler (serverUrl : String) (s : ServerPool) (c : Ctx) :
    EHAction × ServerPool :=
  let retries := GetRetryFromContext c
  if retries < MAX_RETRIES then
    (.retrySame (withRetry c (retries + 1)), s)
  else
    let s' := s.MarkBackendStatus serverUrl false
    (.failover (withAttempts c (GetAttemptsFromContext c + 1)), s')

/-- `n` consecutive transport faults against the backend at `serverUrl`,
starting from context `c`: each fault invokes `ErrorHandler`; a
`retrySame` answer re-invokes the same transport (so the next fault sees
the new context), a `failover` answer leaves this backend's invocation
chain.  Returns the list of handler decisions and the resulting pool. -/
def faultChain (serverUrl : String) : Nat → Ctx → ServerPool →
    List EHAction × ServerPool
  | 0, _, s => ([], s)
  | n + 1, c, s =>
    match ErrorHandler serverUrl s c with
    | (.retrySame c', s') =>
      let rest := faultChain serverUrl n c' s'
      (.retrySame c' :: rest.1, rest.2)
    | (.failover c', s') => ([.failover c'], s')

/-- `n` consecutive calls of `GetNext` on a pool, as issued by `n` inbound
requests handled one after the other: the list of returned backends (in
call order) and the final pool.  A `none` from `GetNext` itself (the
empty-pool panic) stops the run. -/
def runGetNext : Nat → ServerPool → List (Option Backend) × ServerPool
  | 0, s => ([], s)
  | n + 1, s =>
    match s.GetNext with
    | some (r, s') =>
      let rest := runGetNext n s'
      (r :: rest.1, rest.2)
    | none => ([], s)

/-- The interval of the periodic health-check ticker:
`time.NewTicker(time.Second * 20)`. -/
def healthCheckIntervalSeconds : Nat := 20

/-- The probe timeout inside `isBackendAlive`: `timeout := 2 * time.Second`
passed to `net.DialTimeout`. -/
def healthCheckTimeoutSeconds : Nat := 2

/-- `func (s *ServerPool) HealthCheck()`: one tick of the periodic task;
`reach u` is the outcome of `isBackendAlive` (the TCP dial with its
timeout) for the backend at `u`, and the loop does `b.SetAlive(alive)` for
every backend. -/
def ServerPool.HealthCheck (s : ServerPool) (reach : String → Bool) : ServerPool :=
  { s with backends := s.backends.map fun b => { b with alive := reach b.url } }

/-- `func initializeBackends(tokens []string)` acting on the zero-valued
global `serverPool` (`backends` nil, `current` 0): every parsed token
becomes `Backend{URL: serverUrl, Alive: true, ReverseProxy: proxy}` and is
appended with `AddBackend`.  Tokens are the (already well-formed) URL
strings; a `url.Parse` failure is a fatal exit before any backend is
created. -/
def initializeBackends (tokens : List String) : ServerPool :=
  tokens.foldl (fun s tok => s.AddBackend { url := tok, alive := true })
    { backends := [], current := 0 }

/-! ## Helper lemmas -/

/-- `List.find?` over `List.range' s n` returns the least hit: the found
value is in the range, satisfies the predicate, and everything in the range
before it does not. -/
theorem find?_range'_spec (p : Nat → Bool) :
    ∀ (n s k : Nat), (List.range' s n).find? p = some k →
      s ≤ k ∧ k < s + n ∧ p k = true ∧ ∀ j, s ≤ j → j < k → p j = false
  | 0, s, k => by simp
  | n + 1, s, k => by
    rw [List.range'_succ s n 1]
    intro h
    rcases hp : p s with _ | _
    · rw [List.find?_cons_of_neg _ (by simp [hp])] at h
      obtain ⟨h1, h2, h3, h4⟩ := find?_range'_spec p n (s + 1) k h
      refine ⟨by omega, by omega, h3, fun j hj1 hj2 => ?_⟩
      rcases Nat.eq_or_lt_of_le hj1 with rfl | hlt
      · exact hp
      · exact h4 j hlt hj2
    · rw [List.find?_cons_of_pos _ hp] at h
      obtain rfl : s = k := by simpa using h
      exact ⟨le_refl _, by omega, hp, fun j hj1 hj2 => absurd hj1 (by omega)⟩

/-- `List.find?` over `List.range n` returns the least `k < n` satisfying
the predicate. -/
theorem find?_range_spec (p : Nat → Bool) (n k : Nat)
    (h : (List.range n).find? p = some k) :
    k < n ∧ p k = true ∧ ∀ j, j < k → p j = false := by
  rw [List.range_eq_range' n] at h
  obtain ⟨_, h2, h3, h4⟩ := find?_range'_spec p n 0 k h
  exact ⟨by omega, h3, fun j hj => h4 j (Nat.zero_le j) hj⟩

/-- The wrapping scan `k ↦ (next + k) % n` started inside the pool reaches
every position of the pool. -/
theorem rot_surj (n next j : Nat) (hnext : next < n) (hj : j < n) :
    ∃ k, k < n ∧ (next + k) % n = j := by
  rcases le_or_lt next j with hle | hlt
  · refine ⟨j - next, by omega, ?_⟩
    rw [show next + (j - next) = j by omega]
    exact Nat.mod_eq_of_lt hj
  · refine ⟨j + n - next, by omega, ?_⟩
    rw [show next + (j + n - next) = j + n by omega, Nat.add_mod_right]
    exact Nat.mod_eq_of_lt hj

/-- `getD` at an in-bounds index is `get`. -/
theorem getD_eq_get {α : Type} (l : List α) (d : α) (i : Nat) (h : i < l.length) :
    l.getD i d = l.get ⟨i, h⟩ := by
  rw [List.getD_eq_get?, List.get?_eq_get h, Option.getD_some]

/-- What `NextIndex` returns on a nonempty pool. -/
theorem nextIndex_eq (s : ServerPool) (h : s.backends ≠ []) :
    s.NextIndex = some (((s.current + 1) % UINT64_MOD) % s.backends.length,
      { s with current := (s.current + 1) % UINT64_MOD }) := by
  have : s.backends.length ≠ 0 := by
    simpa [List.length_eq_zero] using h
  simp [ServerPool.NextIndex, this]

/-- The scan misses exactly when every backend of the pool is dead (for a
start index inside the pool). -/
theorem findAliveOffset_none_iff (backends : List Backend) (next : Nat)
    (hnext : next < backends.length) :
    findAliveOffset backends next = none ↔ ∀ b ∈ backends, b.alive = false := by
  unfold findAliveOffset
  rw [List.find?_eq_none]
  constructor
  · intro hall b hb
    obtain ⟨⟨j, hj⟩, rfl⟩ := List.mem_iff_get.mp hb
    obtain ⟨k, hk, hkj⟩ := rot_surj backends.length next j hnext hj
    have := hall k (List.mem_range.mpr hk)
    rw [hkj, getD_eq_get backends _ j hj] at this
    simpa using this
  · intro hdead k hk
    have hidx : (next + k) % backends.length < backends.length :=
      Nat.mod_lt _ (by omega)
    rw [getD_eq_get backends _ _ hidx]
    simpa using hdead _ (List.get_mem backends _ hidx)

/-- A scan hit is the first alive position in scan order. -/
theorem findAliveOffset_some_spec (backends : List Backend) (next k : Nat)
    (h : findAliveOffset backends next = some k) :
    k < backends.length ∧
    (∀ hb : (next + k) % backends.length < backends.length,
      (backends.get ⟨(next + k) % backends.length, hb⟩).alive = true) ∧
    (∀ j, j < k → ∀ hb : (next + j) % backends.length < backends.length,
      (backends.get ⟨(next + j) % backends.length, hb⟩).alive = false) := by
  unfold findAliveOffset at h
  obtain ⟨hk, hp, hmin⟩ := find?_range_spec _ _ _ h
  refine ⟨hk, fun hb => ?_, fun j hj hb => ?_⟩
  · rwa [getD_eq_get backends _ _ hb] at hp
  · have := hmin j hj
    rwa [getD_eq_get backends _ _ hb] at this

/-- If the backend at the start index is alive, the scan stops at offset 0. -/
theorem findAliveOffset_zero (backends : List Backend) (next : Nat)
    (hnext : next < backends.length)
    (halive : ∀ hb : next < backends.length, (backends.get ⟨next, hb⟩).alive = true) :
    findAliveOffset backends next = some 0 := by
  have hp0 : (backends.getD ((next + 0) % backends.length) ⟨"", false⟩).alive = true := by
    have h0 : (next + 0) % backends.length = next := by
      simpa using Nat.mod_eq_of_lt hnext
    rw [h0, getD_eq_get backends _ _ hnext]
    exact halive hnext
  obtain ⟨m, hm⟩ :=
    Nat.exists_eq_succ_of_ne_zero (show backends.length ≠ 0 by omega)
  unfold findAliveOffset
  rw [show List.range backends.length = 0 :: (List.range m).map Nat.succ by
        rw [hm]; exact List.range_succ_eq_map m]
  exact List.find?_cons_of_pos _ hp0

/-- `GetNext` on a nonempty pool when the scan hits at offset `k`. -/
theorem getNext_eq_of_find_some (s : ServerPool) (h : s.backends ≠ []) (k : Nat)
    (hfind : findAliveOffset s.backends
      (((s.current + 1) % UINT64_MOD) % s.backends.length) = some k) :
    s.GetNext = some
      (s.backends.get? ((((s.current + 1) % UINT64_MOD) % s.backends.length + k) %
        s.backends.length),
       if k = 0 then { s with current := (s.current + 1) % UINT64_MOD }
       else { s with current :=
         (((s.current + 1) % UINT64_MOD) % s.backends.length + k) % s.backends.length }) := by
  rw [ServerPool.GetNext, nextIndex_eq s h]
  simp only [Option.map_some']
  rw [hfind]

/-- `GetNext` on a nonempty pool when the scan misses. -/
theorem getNext_eq_of_find_none (s : ServerPool) (h : s.backends ≠ [])
    (hfind : findAliveOffset s.backends
      (((s.current + 1) % UINT64_MOD) % s.backends.length) = none) :
    s.GetNext = some (none, { s with current := (s.current + 1) % UINT64_MOD }) := by
  rw [ServerPool.GetNext, nextIndex_eq s h]
  simp only [Option.map_some']
  rw [hfind]

/-- A nonzero scan offset that stays inside the pool lands away from the
start index. -/
theorem rot_ne (n next k : Nat) (hnext : next < n) (hk : k < n) (hk0 : k ≠ 0) :
    (next + k) % n ≠ next := by
  intro heq
  have h1 : next + k ≡ next + 0 [MOD n] := by
    unfold Nat.ModEq
    simpa [heq] using (Nat.mod_eq_of_lt hnext).symm
  have h2 : k ≡ 0 [MOD n] := Nat.ModEq.add_left_cancel' next h1
  have h3 : k % n = 0 := by simpa [Nat.ModEq] using h2
  rw [Nat.mod_eq_of_lt hk] at h3
  exact hk0 h3

/-! ## Claim theorems -/

/-- C6: on a nonempty pool, `NextIndex` increments the cursor (wrapping at
`2 ^ 64`) and returns the new cursor value modulo the pool size, a valid
index in `[0, len)`; on an empty pool the operation fails (the `% 0`
panic), so under the precondition that at least one backend was configured
the failure branch is unreachable. -/
theorem c6_nextIndex_valid_index (s : ServerPool) :
    (s.NextIndex = none ↔ s.backends = []) ∧
    (s.backends ≠ [] →
      ∃ i s', s.NextIndex = some (i, s') ∧
        s'.current = (s.current + 1) % UINT64_MOD ∧
        i = s'.current % s.backends.length ∧
        i < s.backends.length ∧
        s'.backends = s.backends) := by
  constructor
  · constructor
    · intro hnone
      by_contra hne
      rw [nextIndex_eq s hne] at hnone
      cases hnone
    · intro he
      simp [ServerPool.NextIndex, he]
  · intro hne
    have hlen : 0 < s.backends.length := List.length_pos.mpr hne
    exact ⟨_, _, nextIndex_eq s hne, rfl, rfl, Nat.mod_lt _ hlen, rfl⟩

/-- C6 witness: the spec of `NextIndex` evaluated on a concrete one-backend
pool with cursor 5. -/
theorem c6_witness :
    ((ServerPool.mk [⟨"a", true⟩] 5).NextIndex = none ↔
      (ServerPool.mk [⟨"a", true⟩] 5).backends = []) ∧
    ((ServerPool.mk [⟨"a", true⟩] 5).backends ≠ [] →
      ∃ i s', (ServerPool.mk [⟨"a", true⟩] 5).NextIndex = some (i, s') ∧
        s'.current = (5 + 1) % UINT64_MOD ∧
        i = s'.current % (ServerPool.mk [⟨"a", true⟩] 5).backends.length ∧
        i < (ServerPool.mk [⟨"a", true⟩] 5).backends.length ∧
        s'.backends = (ServerPool.mk [⟨"a", true⟩] 5).backends) :=
  c6_nextIndex_valid_index (ServerPool.mk [⟨"a", true⟩] 5)

/-- Full characterization of `GetNext` on a nonempty pool, shared by the
claims about selection: the result is alive and a member of the pool, it is
`none` exactly when all backends are dead, and a returned backend is the
first alive one in scan order from the `NextIndex` start. -/
theorem getNext_spec_full (s : ServerPool) (h : s.backends ≠ []) :
    ∃ r s', s.GetNext = some (r, s') ∧
      (∀ b, r = some b → b ∈ s.backends ∧ b.alive = true) ∧
      (r = none ↔ ∀ b ∈ s.backends, b.alive = false) ∧
      (∀ b, r = some b →
        ∃ next s1 k, s.NextIndex = some (next, s1) ∧ k < s.backends.length ∧
          s.backends.get? ((next + k) % s.backends.length) = some b ∧
          ∀ j, j < k → ∀ b', s.backends.get? ((next + j) % s.backends.length) = some b' →
            b'.alive = false) := by
  have hlen : 0 < s.backends.length := List.length_pos.mpr h
  have hnextlt : ((s.current + 1) % UINT64_MOD) % s.backends.length < s.backends.length :=
    Nat.mod_lt _ hlen
  cases hfind : findAliveOffset s.backends (((s.current + 1) % UINT64_MOD) % s.backends.length) with
  | none =>
    refine ⟨none, _, getNext_eq_of_find_none s h hfind, ?_, ?_, ?_⟩
    · intro b hb
      cases hb
    · simpa using (findAliveOffset_none_iff s.backends _ hnextlt).mp hfind
    · intro b hb
      cases hb
  | some k =>
    obtain ⟨hk, halive, hmin⟩ := findAliveOffset_some_spec s.backends _ k hfind
    have hidx : (((s.current + 1) % UINT64_MOD) % s.backends.length + k) % s.backends.length <
        s.backends.length := Nat.mod_lt _ hlen
    have hget : s.backends.get?
        ((((s.current + 1) % UINT64_MOD) % s.backends.length + k) % s.backends.length) =
        some (s.backends.get ⟨_, hidx⟩) := List.get?_eq_get hidx
    refine ⟨some (s.backends.get ⟨_, hidx⟩),
      if k = 0 then { s with current := (s.current + 1) % UINT64_MOD }
      else { s with current :=
        (((s.current + 1) % UINT64_MOD) % s.backends.length + k) % s.backends.length },
      ?_, ?_, ?_, ?_⟩
    · rw [getNext_eq_of_find_some s h k hfind, hget]
    · rintro b hb
      injection hb with hb
      subst hb
      exact ⟨List.get_mem _ _ hidx, halive hidx⟩
    · constructor
      · intro hcontra
        cases hcontra
      · intro hdead
        have hcontra := hdead _ (List.get_mem _ _ hidx)
        rw [halive hidx] at hcontra
        cases hcontra
    · rintro b hb
      injection hb with hb
      subst hb
      refine ⟨_, _, k, nextIndex_eq s h, hk, hget, ?_⟩
      intro j hj b' hb'
      have hidxj : (((s.current + 1) % UINT64_MOD) % s.backends.length + j) % s.backends.length <
          s.backends.length := Nat.mod_lt _ hlen
      rw [List.get?_eq_get hidxj] at hb'
      injection hb' with hb'
      subst hb'
      exact hmin j hj hidxj

/-- C2: for every nonempty pool, `GetNext` computes a starting index via
`NextIndex`, scans forward through all `len(backends)` positions wrapping
around, and returns the first backend whose liveness flag reads true; it
never returns a backend whose liveness flag is false, and it returns
`nil` exactly when every backend in the pool is marked dead. -/
theorem c2_getNext_first_alive (s : ServerPool) (h : s.backends ≠ []) :
    ∃ r s', s.GetNext = some (r, s') ∧
      (∀ b, r = some b → b ∈ s.backends ∧ b.alive = true) ∧
      (r = none ↔ ∀ b ∈ s.backends, b.alive = false) ∧
      (∀ b, r = some b →
        ∃ next s1 k, s.NextIndex = some (next, s1) ∧ k < s.backends.length ∧
          s.backends.get? ((next + k) % s.backends.length) = some b ∧
          ∀ j, j < k → ∀ b', s.backends.get? ((next + j) % s.backends.length) = some b' →
            b'.alive = false) :=
  getNext_spec_full s h

/-- C2 witness: the spec of `GetNext` evaluated on a concrete pool whose
first backend in scan order is dead. -/
theorem c2_witness :
    ∃ r s', (ServerPool.mk [⟨"a", false⟩, ⟨"b", true⟩] 0).GetNext = some (r, s') ∧
      (∀ b, r = some b → b ∈ (ServerPool.mk [⟨"a", false⟩, ⟨"b", true⟩] 0).backends ∧
        b.alive = true) ∧
      (r = none ↔ ∀ b ∈ (ServerPool.mk [⟨"a", false⟩, ⟨"b", true⟩] 0).backends,
        b.alive = false) ∧
      (∀ b, r = some b →
        ∃ next s1 k, (ServerPool.mk [⟨"a", false⟩, ⟨"b", true⟩] 0).NextIndex = some (next, s1) ∧
          k < (ServerPool.mk [⟨"a", false⟩, ⟨"b", true⟩] 0).backends.length ∧
          (ServerPool.mk [⟨"a", false⟩, ⟨"b", true⟩] 0).backends.get?
            ((next + k) % (ServerPool.mk [⟨"a", false⟩, ⟨"b", true⟩] 0).backends.length) =
            some b ∧
          ∀ j, j < k → ∀ b',
            (ServerPool.mk [⟨"a", false⟩, ⟨"b", true⟩] 0).backends.get?
              ((next + j) % (ServerPool.mk [⟨"a", false⟩, ⟨"b", true⟩] 0).backends.length) =
              some b' → b'.alive = false) :=
  c2_getNext_first_alive (ServerPool.mk [⟨"a", false⟩, ⟨"b", true⟩] 0) (by decide)

/-- C3: for every request over a nonempty pool, the `LoadBalance` handler
responds with the terminal service-unavailable status exactly when the
request's attempts counter (default 0 if the key is absent) exceeds the
attempt ceiling 3 or `GetNext` returns no alive backend; in all other
cases it delegates the request to the backend chosen by `GetNext`. -/
theorem c3_loadBalance_503_iff (s : ServerPool) (c : Ctx) (h : s.backends ≠ []) :
    ∃ r s', LoadBalance s c = some (r, s') ∧
      (r = .serviceUnavailable ↔
        GetAttemptsFromContext c > MAX_RETRIES ∨ ∀ b ∈ s.backends, b.alive = false) ∧
      (∀ b, r = .forwarded b →
        GetAttemptsFromContext c ≤ MAX_RETRIES ∧ s.GetNext = some (some b, s')) := by
  by_cases hatt : GetAttemptsFromContext c > MAX_RETRIES
  · refine ⟨.serviceUnavailable, s, ?_, ?_, ?_⟩
    · simp [LoadBalance, hatt]
    · exact ⟨fun _ => Or.inl hatt, fun _ => rfl⟩
    · intro b hb
      cases hb
  · obtain ⟨r, s', hGN, hlive, hiff, _⟩ := getNext_spec_full s h
    cases r with
    | none =>
      refine ⟨.serviceUnavailable, s', ?_, ?_, ?_⟩
      · simp [LoadBalance, hatt, hGN]
      · exact ⟨fun _ => Or.inr (hiff.mp rfl), fun _ => rfl⟩
      · intro b hb
        cases hb
    | some b =>
      refine ⟨.forwarded b, s', ?_, ?_, ?_⟩
      · simp [LoadBalance, hatt, hGN]
      · constructor
        · intro hcontra
          cases hcontra
        · rintro (hgt | hdead)
          · exact absurd hgt hatt
          · have hmem := (hlive b rfl).1
            have halive := (hlive b rfl).2
            rw [hdead b hmem] at halive
            cases halive
      · rintro b' hb'
        injection hb' with hb'
        subst hb'
        exact ⟨Nat.not_lt.mp hatt, hGN⟩

/-- C3 witness: the `LoadBalance` spec evaluated on a concrete two-backend
pool and the empty request context. -/
theorem c3_witness :
    ∃ r s', LoadBalance (ServerPool.mk [⟨"a", false⟩, ⟨"b", true⟩] 0) ⟨none, none⟩ =
        some (r, s') ∧
      (r = .serviceUnavailable ↔
        GetAttemptsFromContext ⟨none, none⟩ > MAX_RETRIES ∨
        ∀ b ∈ (ServerPool.mk [⟨"a", false⟩, ⟨"b", true⟩] 0).backends, b.alive = false) ∧
      (∀ b, r = .forwarded b →
        GetAttemptsFromContext ⟨none, none⟩ ≤ MAX_RETRIES ∧
        (ServerPool.mk [⟨"a", false⟩, ⟨"b", true⟩] 0).GetNext = some (some b, s')) :=
  c3_loadBalance_503_iff (ServerPool.mk [⟨"a", false⟩, ⟨"b", true⟩] 0) ⟨none, none⟩ (by decide)

/-- C7: on a nonempty pool, `GetNext` leaves the backend list untouched;
when the backend at the starting index is alive the cursor carries only
the increment performed by `NextIndex`, and any further cursor change
stores exactly the found backend's index, which the scan reached by
skipping the starting index. -/
theorem c7_getNext_cursor_frame (s : ServerPool) (h : s.backends ≠ []) :
    ∃ r s', s.GetNext = some (r, s') ∧
      s'.backends = s.backends ∧
      (∀ hb : ((s.current + 1) % UINT64_MOD) % s.backends.length < s.backends.length,
        (s.backends.get ⟨((s.current + 1) % UINT64_MOD) % s.backends.length, hb⟩).alive = true →
        s' = { s with current := (s.current + 1) % UINT64_MOD }) ∧
      (s'.current = (s.current + 1) % UINT64_MOD ∨
        ∃ idx, idx < s.backends.length ∧
          idx ≠ ((s.current + 1) % UINT64_MOD) % s.backends.length ∧
          s'.current = idx ∧ r = s.backends.get? idx ∧
          ∀ hb : idx < s.backends.length, (s.backends.get ⟨idx, hb⟩).alive = true) := by
  have hlen : 0 < s.backends.length := List.length_pos.mpr h
  have hnextlt : ((s.current + 1) % UINT64_MOD) % s.backends.length < s.backends.length :=
    Nat.mod_lt _ hlen
  cases hfind : findAliveOffset s.backends (((s.current + 1) % UINT64_MOD) % s.backends.length) with
  | none =>
    refine ⟨none, _, getNext_eq_of_find_none s h hfind, rfl, fun _ _ => rfl, Or.inl rfl⟩
  | some k =>
    by_cases hk0 : k = 0
    · subst hk0
      refine ⟨s.backends.get? (((s.current + 1) % UINT64_MOD) % s.backends.length),
        { s with current := (s.current + 1) % UINT64_MOD },
        ?_, rfl, fun _ _ => rfl, Or.inl rfl⟩
      have := getNext_eq_of_find_some s h 0 hfind
      simpa using this
    · obtain ⟨hk, halive, _⟩ := findAliveOffset_some_spec s.backends _ k hfind
      have hidx : (((s.current + 1) % UINT64_MOD) % s.backends.length + k) % s.backends.length <
          s.backends.length := Nat.mod_lt _ hlen
      refine ⟨s.backends.get? ((((s.current + 1) % UINT64_MOD) % s.backends.length + k) %
          s.backends.length),
        { s with current :=
          (((s.current + 1) % UINT64_MOD) % s.backends.length + k) % s.backends.length },
        ?_, rfl, ?_, ?_⟩
      · have := getNext_eq_of_find_some s h k hfind
        simpa [hk0] using this
      · intro hb hstart
        have h0 : findAliveOffset s.backends
            (((s.current + 1) % UINT64_MOD) % s.backends.length) = some 0 :=
          findAliveOffset_zero s.backends _ hnextlt (fun _ => hstart)
        rw [hfind] at h0
        injection h0 with h0
        exact (hk0 (by omega)).elim
      · exact Or.inr ⟨_, hidx, rot_ne _ _ _ hnextlt hk hk0, rfl, rfl, fun hb => halive hb⟩

/-- C7 witness: the frame spec of `GetNext` evaluated on a concrete pool
whose backend at the starting index is dead, forcing a cursor store. -/
theorem c7_witness :
    ∃ r s', (ServerPool.mk [⟨"a", true⟩, ⟨"b", false⟩, ⟨"c", true⟩] 0).GetNext =
        some (r, s') ∧
      s'.backends = (ServerPool.mk [⟨"a", true⟩, ⟨"b", false⟩, ⟨"c", true⟩] 0).backends ∧
      (∀ hb : ((0 + 1) % UINT64_MOD) %
          (ServerPool.mk [⟨"a", true⟩, ⟨"b", false⟩, ⟨"c", true⟩] 0).backends.length <
          (ServerPool.mk [⟨"a", true⟩, ⟨"b", false⟩, ⟨"c", true⟩] 0).backends.length,
        ((ServerPool.mk [⟨"a", true⟩, ⟨"b", false⟩, ⟨"c", true⟩] 0).backends.get
          ⟨((0 + 1) % UINT64_MOD) %
            (ServerPool.mk [⟨"a", true⟩, ⟨"b", false⟩, ⟨"c", true⟩] 0).backends.length,
            hb⟩).alive = true →
        s' = { ServerPool.mk [⟨"a", true⟩, ⟨"b", false⟩, ⟨"c", true⟩] 0 with
          current := (0 + 1) % UINT64_MOD }) ∧
      (s'.current = (0 + 1) % UINT64_MOD ∨
        ∃ idx, idx < (ServerPool.mk [⟨"a", true⟩, ⟨"b", false⟩, ⟨"c", true⟩] 0).backends.length ∧
          idx ≠ ((0 + 1) % UINT64_MOD) %
            (ServerPool.mk [⟨"a", true⟩, ⟨"b", false⟩, ⟨"c", true⟩] 0).backends.length ∧
          s'.current = idx ∧
          r = (ServerPool.mk [⟨"a", true⟩, ⟨"b", false⟩, ⟨"c", true⟩] 0).backends.get? idx ∧
          ∀ hb : idx < (ServerPool.mk [⟨"a", true⟩, ⟨"b", false⟩, ⟨"c", true⟩] 0).backends.length,
            ((ServerPool.mk [⟨"a", true⟩, ⟨"b", false⟩, ⟨"c", true⟩] 0).backends.get
              ⟨idx, hb⟩).alive = true) :=
  c7_getNext_cursor_frame (ServerPool.mk [⟨"a", true⟩, ⟨"b", false⟩, ⟨"c", true⟩] 0) (by decide)

/-- C8: one tick of the health checker (the loop of
`ServerPool.HealthCheck`, run by the 20-second ticker) probes every
backend with the 2-second-timeout dial and sets each backend's liveness
flag to exactly the probe outcome; in particular a dead backend whose
probe succeeds again is marked alive by that tick.  The cursor and the
pool's shape are untouched. -/
theorem c8_healthCheck_sets_probe_outcome (s : ServerPool) (reach : String → Bool) :
    healthCheckIntervalSeconds = 20 ∧ healthCheckTimeoutSeconds = 2 ∧
    (s.HealthCheck reach).current = s.current ∧
    (s.HealthCheck reach).backends.length = s.backends.length ∧
    (∀ i b, s.backends.get? i = some b →
      (s.HealthCheck reach).backends.get? i = some { b with alive := reach b.url }) ∧
    (∀ i b, s.backends.get? i = some b → b.alive = false → reach b.url = true →
      ∃ b', (s.HealthCheck reach).backends.get? i = some b' ∧ b'.alive = true) := by
  refine ⟨rfl, rfl, rfl, by simp [ServerPool.HealthCheck], ?_, ?_⟩
  · intro i b hb
    rw [List.get?_eq_getElem?] at hb
    simp [ServerPool.HealthCheck, List.getElem?_map, hb]
  · intro i b hb _ hreach
    refine ⟨{ b with alive := reach b.url }, ?_, ?_⟩
    · rw [List.get?_eq_getElem?] at hb
      simp [ServerPool.HealthCheck, List.getElem?_map, hb]
    · simpa using hreach

/-- C8 witness: the health-check spec evaluated on a concrete pool with a
dead backend whose probe succeeds and an alive backend whose probe fails. -/
theorem c8_witness :
    healthCheckIntervalSeconds = 20 ∧ healthCheckTimeoutSeconds = 2 ∧
    ((ServerPool.mk [⟨"a", false⟩, ⟨"b", true⟩] 7).HealthCheck
      (fun u => u = "a")).current = (ServerPool.mk [⟨"a", false⟩, ⟨"b", true⟩] 7).current ∧
    ((ServerPool.mk [⟨"a", false⟩, ⟨"b", true⟩] 7).HealthCheck
      (fun u => u = "a")).backends.length =
      (ServerPool.mk [⟨"a", false⟩, ⟨"b", true⟩] 7).backends.length ∧
    (∀ i b, (ServerPool.mk [⟨"a", false⟩, ⟨"b", true⟩] 7).backends.get? i = some b →
      ((ServerPool.mk [⟨"a", false⟩, ⟨"b", true⟩] 7).HealthCheck
        (fun u => u = "a")).backends.get? i = some { b with alive := b.url = "a" }) ∧
    (∀ i b, (ServerPool.mk [⟨"a", false⟩, ⟨"b", true⟩] 7).backends.get? i = some b →
      b.alive = false → (b.url = "a" : Bool) = true →
      ∃ b', ((ServerPool.mk [⟨"a", false⟩, ⟨"b", true⟩] 7).HealthCheck
        (fun u => u = "a")).backends.get? i = some b' ∧ b'.alive = true) :=
  c8_healthCheck_sets_probe_outcome (ServerPool.mk [⟨"a", false⟩, ⟨"b", true⟩] 7)
    (fun u => u = "a")

/-- C9: every backend created by `initializeBackends` from the configured
token list carries `Alive: true`, so before the first health-check tick
every configured backend is selectable by `GetNext` (from a suitable
cursor position, `GetNext` returns exactly that backend). -/
theorem c9_backends_start_alive (tokens : List String) :
    (initializeBackends tokens).backends = tokens.map (fun t => ⟨t, true⟩) ∧
    (initializeBackends tokens).current = 0 ∧
    (∀ b ∈ (initializeBackends tokens).backends, b.alive = true) ∧
    (tokens.length ≤ UINT64_MOD →
      ∀ j, ∀ hj : j < (initializeBackends tokens).backends.length,
        ∃ c s', (ServerPool.mk (initializeBackends tokens).backends c).GetNext =
          some (some ((initializeBackends tokens).backends.get ⟨j, hj⟩), s')) := by
  have hfold : ∀ (ts : List String) (s : ServerPool),
      (ts.foldl (fun s tok => s.AddBackend { url := tok, alive := true }) s).backends =
        s.backends ++ ts.map (fun t => ⟨t, true⟩) ∧
      (ts.foldl (fun s tok => s.AddBackend { url := tok, alive := true }) s).current =
        s.current := by
    intro ts
    induction ts with
    | nil => intro s; simp
    | cons t ts ih =>
      intro s
      obtain ⟨h1, h2⟩ := ih (s.AddBackend { url := t, alive := true })
      constructor
      · rw [List.foldl_cons, h1]
        simp [ServerPool.AddBackend]
      · rw [List.foldl_cons, h2]
        rfl
  obtain ⟨hbk, hcur⟩ := hfold tokens { backends := [], current := 0 }
  have hbk' : (initializeBackends tokens).backends = tokens.map (fun t => ⟨t, true⟩) := by
    simpa [initializeBackends] using hbk
  have halive_all : ∀ b ∈ (initializeBackends tokens).backends, b.alive = true := by
    intro b hb
    rw [hbk'] at hb
    obtain ⟨t, _, rfl⟩ := List.mem_map.mp hb
    rfl
  refine ⟨hbk', by simpa [initializeBackends] using hcur, halive_all, ?_⟩
  · intro hsz j hj
    have hlen : (initializeBackends tokens).backends ≠ [] := by
      intro hnil
      rw [hnil] at hj
      simp at hj
    have hlenpos : 0 < (initializeBackends tokens).backends.length :=
      List.length_pos.mpr hlen
    have hlentok : (initializeBackends tokens).backends.length = tokens.length := by
      rw [hbk']
      simp
    -- choose the cursor so that the incremented cursor lands exactly on j
    refine ⟨if j = 0 then UINT64_MOD - 1 else j - 1, ?_⟩
    have hculen : ((if j = 0 then UINT64_MOD - 1 else j - 1) + 1) % UINT64_MOD %
        (initializeBackends tokens).backends.length = j := by
      by_cases hj0 : j = 0
      · subst hj0
        have : (UINT64_MOD - 1 + 1) % UINT64_MOD = 0 := by
          have hpos : 0 < UINT64_MOD := Nat.pos_pow_of_pos 64 (by omega)
          rw [show UINT64_MOD - 1 + 1 = UINT64_MOD by omega, Nat.mod_self]
        rw [if_pos rfl, this, Nat.zero_mod]
      · have hj1 : 1 ≤ j := Nat.one_le_iff_ne_zero.mpr hj0
        have hjM : j < UINT64_MOD := by
          have := hj
          rw [hlentok] at this
          omega
        rw [if_neg hj0, show j - 1 + 1 = j by omega, Nat.mod_eq_of_lt hjM,
          Nat.mod_eq_of_lt (by omega : j < (initializeBackends tokens).backends.length)]
    set p : ServerPool :=
      ServerPool.mk (initializeBackends tokens).backends
        (if j = 0 then UINT64_MOD - 1 else j - 1) with hp
    have hpne : p.backends ≠ [] := hlen
    have hpstart : ((p.current + 1) % UINT64_MOD) % p.backends.length = j := hculen
    have halivej : ∀ hb : ((p.current + 1) % UINT64_MOD) % p.backends.length <
        p.backends.length,
        (p.backends.get ⟨((p.current + 1) % UINT64_MOD) % p.backends.length, hb⟩).alive
          = true :=
      fun hb => halive_all _ (List.get_mem p.backends _ hb)
    have hfind := findAliveOffset_zero p.backends _
      (by rw [hpstart]; exact hj) halivej
    have := getNext_eq_of_find_some p hpne 0 hfind
    refine ⟨{ p with current := (p.current + 1) % UINT64_MOD }, ?_⟩
    rw [this]
    simp only [if_pos rfl]
    have hidx0 : (((p.current + 1) % UINT64_MOD) % p.backends.length + 0) %
        p.backends.length = j := by
      rw [Nat.add_zero, hpstart, Nat.mod_eq_of_lt (by exact hj)]
    rw [hidx0, List.get?_eq_get hj]
    simp

/-- C9 witness: initialization from two concrete tokens, every backend
alive and selectable. -/
theorem c9_witness :
    (initializeBackends ["http://x:1", "http://y:2"]).backends =
      ["http://x:1", "http://y:2"].map (fun t => ⟨t, true⟩) ∧
    (initializeBackends ["http://x:1", "http://y:2"]).current = 0 ∧
    (∀ b ∈ (initializeBackends ["http://x:1", "http://y:2"]).backends, b.alive = true) ∧
    ((["http://x:1", "http://y:2"] : List String).length ≤ UINT64_MOD →
      ∀ j, ∀ hj : j < (initializeBackends ["http://x:1", "http://y:2"]).backends.length,
        ∃ c s', (ServerPool.mk (initializeBackends ["http://x:1", "http://y:2"]).backends
            c).GetNext =
          some (some ((initializeBackends ["http://x:1", "http://y:2"]).backends.get
            ⟨j, hj⟩), s')) :=
  c9_backends_start_alive ["http://x:1", "http://y:2"]

/-- `markFirst` keeps the list length. -/
theorem markFirst_length (u : String) (a : Bool) :
    ∀ l : List Backend, (markFirst u a l).length = l.length
  | [] => rfl
  | b :: rest => by
    by_cases hb : b.url = u
    · simp [markFirst, hb]
    · simp [markFirst, hb, markFirst_length u a rest]

/-- `markFirst` is the identity when no backend matches the URL. -/
theorem markFirst_nomatch (u : String) (a : Bool) :
    ∀ l : List Backend, (∀ b ∈ l, b.url ≠ u) → markFirst u a l = l
  | [] => fun _ => rfl
  | b :: rest => fun h => by
    have hb : b.url ≠ u := h b (List.mem_cons_self b rest)
    simp only [markFirst, if_neg hb]
    rw [markFirst_nomatch u a rest (fun b' hb' => h b' (List.mem_cons_of_mem b hb'))]

/-- `markFirst` sets the flag of the first matching backend and leaves
every other position untouched. -/
theorem markFirst_first_match (u : String) (a : Bool) :
    ∀ (l : List Backend) (i : Nat) (b : Backend), l.get? i = some b → b.url = u →
      (∀ j b', j < i → l.get? j = some b' → b'.url ≠ u) →
      (markFirst u a l).get? i = some { b with alive := a } ∧
      ∀ j, j ≠ i → (markFirst u a l).get? j = l.get? j
  | [], i, b => by intro h; cases h.symm.trans (List.get?_eq_none.mpr (by simp))
  | b0 :: rest, i, b => by
    intro hget hurl hmin
    by_cases h0 : b0.url = u
    · cases i with
      | zero =>
        injection hget with hget
        subst hget
        refine ⟨by simp [markFirst, h0], ?_⟩
        intro j hj
        obtain ⟨j', rfl⟩ := Nat.exists_eq_succ_of_ne_zero hj
        simp [markFirst, h0]
      | succ i' =>
        exact absurd h0 (hmin 0 b0 (Nat.succ_pos i') rfl)
    · cases i with
      | zero =>
        injection hget with hget
        subst hget
        exact absurd hurl h0
      | succ i' =>
        have hmin' : ∀ j b', j < i' → rest.get? j = some b' → b'.url ≠ u := by
          intro j b' hj hget'
          exact hmin (j + 1) b' (by omega) (by simpa using hget')
        obtain ⟨ih1, ih2⟩ :=
          markFirst_first_match u a rest i' b (by simpa using hget) hurl hmin'
        refine ⟨by simpa [markFirst, h0] using ih1, ?_⟩
        intro j hj
        cases j with
        | zero => simp [markFirst, h0]
        | succ j' =>
          have : j' ≠ i' := by omega
          simpa [markFirst, h0] using ih2 j' this

/-- C10: `MarkBackendStatus` modifies the liveness flag of at most one
backend — the first backend in pool order whose URL string equals the
given URL — and leaves every other backend and the rotation cursor
unchanged; if no backend matches, the whole pool state is unchanged. -/
theorem c10_markBackendStatus_frame (s : ServerPool) (u : String) (alive : Bool) :
    (s.MarkBackendStatus u alive).current = s.current ∧
    (s.MarkBackendStatus u alive).backends.length = s.backends.length ∧
    ((∀ b ∈ s.backends, b.url ≠ u) → s.MarkBackendStatus u alive = s) ∧
    (∀ i b, s.backends.get? i = some b → b.url = u →
      (∀ j b', j < i → s.backends.get? j = some b' → b'.url ≠ u) →
      (s.MarkBackendStatus u alive).backends.get? i = some { b with alive := alive } ∧
      ∀ j, j ≠ i → (s.MarkBackendStatus u alive).backends.get? j = s.backends.get? j) := by
  refine ⟨rfl, markFirst_length u alive s.backends, ?_, ?_⟩
  · intro hno
    have := markFirst_nomatch u alive s.backends hno
    simp [ServerPool.MarkBackendStatus, this]
  · intro i b hget hurl hmin
    exact markFirst_first_match u alive s.backends i b hget hurl hmin

/-- C10 witness: marking "a" dead in a pool holding two backends named "a"
flips only the first one and keeps the cursor. -/
theorem c10_witness :
    ((ServerPool.mk [⟨"a", true⟩, ⟨"b", true⟩, ⟨"a", true⟩] 3).MarkBackendStatus "a"
      false).current = (ServerPool.mk [⟨"a", true⟩, ⟨"b", true⟩, ⟨"a", true⟩] 3).current ∧
    ((ServerPool.mk [⟨"a", true⟩, ⟨"b", true⟩, ⟨"a", true⟩] 3).MarkBackendStatus "a"
      false).backends.length =
      (ServerPool.mk [⟨"a", true⟩, ⟨"b", true⟩, ⟨"a", true⟩] 3).backends.length ∧
    ((∀ b ∈ (ServerPool.mk [⟨"a", true⟩, ⟨"b", true⟩, ⟨"a", true⟩] 3).backends,
        b.url ≠ "a") →
      (ServerPool.mk [⟨"a", true⟩, ⟨"b", true⟩, ⟨"a", true⟩] 3).MarkBackendStatus "a" false =
        ServerPool.mk [⟨"a", true⟩, ⟨"b", true⟩, ⟨"a", true⟩] 3) ∧
    (∀ i b, (ServerPool.mk [⟨"a", true⟩, ⟨"b", true⟩, ⟨"a", true⟩] 3).backends.get? i =
        some b → b.url = "a" →
      (∀ j b', j < i →
        (ServerPool.mk [⟨"a", true⟩, ⟨"b", true⟩, ⟨"a", true⟩] 3).backends.get? j =
          some b' → b'.url ≠ "a") →
      ((ServerPool.mk [⟨"a", true⟩, ⟨"b", true⟩, ⟨"a", true⟩] 3).MarkBackendStatus "a"
        false).backends.get? i = some { b with alive := false } ∧
      ∀ j, j ≠ i →
        ((ServerPool.mk [⟨"a", true⟩, ⟨"b", true⟩, ⟨"a", true⟩] 3).MarkBackendStatus "a"
          false).backends.get? j =
        (ServerPool.mk [⟨"a", true⟩, ⟨"b", true⟩, ⟨"a", true⟩] 3).backends.get? j) :=
  c10_markBackendStatus_frame (ServerPool.mk [⟨"a", true⟩, ⟨"b", true⟩, ⟨"a", true⟩] 3)
    "a" false

/-- On an all-alive pool, one `GetNext` call below the uint64 wrap returns
the backend at the incremented cursor position and only increments the
cursor. -/
theorem getNext_all_alive_step (s : ServerPool) (h : s.backends ≠ [])
    (halive : ∀ b ∈ s.backends, b.alive = true)
    (hnw : s.current + 1 < UINT64_MOD) :
    s.GetNext = some (s.backends.get? ((s.current + 1) % s.backends.length),
      { s with current := s.current + 1 }) := by
  have hlen : 0 < s.backends.length := List.length_pos.mpr h
  have hmod : (s.current + 1) % UINT64_MOD = s.current + 1 := Nat.mod_eq_of_lt hnw
  have hnextlt : (s.current + 1) % s.backends.length < s.backends.length :=
    Nat.mod_lt _ hlen
  have hfind : findAliveOffset s.backends
      (((s.current + 1) % UINT64_MOD) % s.backends.length) = some 0 := by
    rw [hmod]
    exact findAliveOffset_zero s.backends _ hnextlt
      (fun hb => halive _ (List.get_mem _ _ hb))
  have := getNext_eq_of_find_some s h 0 hfind
  rw [this, hmod]
  have hidx : ((s.current + 1) % s.backends.length + 0) % s.backends.length =
      (s.current + 1) % s.backends.length := by
    rw [Nat.add_zero, Nat.mod_eq_of_lt hnextlt]
  rw [hidx]
  simp

/-- The trace of `m` consecutive `GetNext` calls on an all-alive pool below
the uint64 wrap: call `i` (0-based) returns the backend at position
`(c + 1 + i) % N`. -/
theorem runGetNext_all_alive (backends : List Backend) (N : Nat)
    (hN : backends.length = N) (h : backends ≠ [])
    (halive : ∀ b ∈ backends, b.alive = true) :
    ∀ (m c : Nat), c + m < UINT64_MOD →
      (runGetNext m ⟨backends, c⟩).1 =
        (List.range m).map (fun i => backends.get? ((c + 1 + i) % N))
  | 0, c => fun _ => by simp [runGetNext]
  | m + 1, c => fun hcm => by
    have hstep := getNext_all_alive_step ⟨backends, c⟩ h halive
      (by show c + 1 < UINT64_MOD; omega)
    have ih := runGetNext_all_alive backends N hN h halive m (c + 1) (by omega)
    have hunfold : (runGetNext (m + 1) ⟨backends, c⟩).1 =
        backends.get? ((c + 1) % N) :: (runGetNext m ⟨backends, c + 1⟩).1 := by
      rw [show (⟨backends, c + 1⟩ : ServerPool) =
        { (⟨backends, c⟩ : ServerPool) with current := c + 1 } from rfl]
      simp only [runGetNext, hstep, hN]
    rw [hunfold, ih, List.range_succ_eq_map, List.map_cons, List.map_map]
    congr 1
    apply List.map_congr_left
    intro i _
    show backends.get? ((c + 1 + 1 + i) % N) = backends.get? ((c + 1 + (i + 1)) % N)
    congr 2
    omega

/-- The wrapping rotation `i ↦ (r + i) % N` permutes `0, …, N-1`. -/
theorem range_map_rot_perm (N r : Nat) :
    List.Perm ((List.range N).map (fun i => (r + i) % N)) (List.range N) := by
  have heq : (List.range N).map (fun i => (r + i) % N) = (List.range N).rotate r := by
    apply List.ext_get
    · simp
    · intro i h1 h2
      rw [List.get_map, List.get_range, List.get_rotate]
      simp [List.get_range, Nat.add_comm]
  rw [heq]
  exact List.rotate_perm _ r

/-- C4 counterexample: a pool of three distinct alive backends with the
cursor two steps below the uint64 wrap; three consecutive `GetNext` calls
return backend "a" twice (indices 0, 0, 1), because `2 ^ 64` is not a
multiple of 3, so the three calls are not three distinct backends. -/
theorem c4_counterexample :
    (runGetNext 3 (ServerPool.mk [⟨"a", true⟩, ⟨"b", true⟩, ⟨"c", true⟩]
        (UINT64_MOD - 2))).1 =
      [some ⟨"a", true⟩, some ⟨"a", true⟩, some ⟨"b", true⟩] ∧
    ¬ (runGetNext 3 (ServerPool.mk [⟨"a", true⟩, ⟨"b", true⟩, ⟨"c", true⟩]
        (UINT64_MOD - 2))).1.Nodup := by
  constructor
  · decide
  · decide

/-- C4 (amended): for every pool of `N` backends all marked alive, with no
liveness changes between calls, and with the cursor at least `N` below the
uint64 wrap point, `N` consecutive `GetNext` calls return the backends at
the `N` distinct positions exactly once each, in the stable rotation
order `(cursor+1) % N, (cursor+2) % N, …` determined by the cursor. -/
theorem c4_roundRobin_fair (s : ServerPool) (N : Nat)
    (hN : s.backends.length = N) (hpos : 0 < N)
    (halive : ∀ b ∈ s.backends, b.alive = true)
    (hwrap : s.current + N < UINT64_MOD) :
    (runGetNext N s).1 =
      (List.range N).map (fun i => s.backends.get? ((s.current + 1 + i) % N)) ∧
    List.Perm (runGetNext N s).1 ((List.range N).map (fun j => s.backends.get? j)) := by
  obtain ⟨backends, c⟩ := s
  have h : backends ≠ [] := by
    intro hnil
    rw [hnil] at hN
    simp at hN
    omega
  have h1 := runGetNext_all_alive backends N hN h halive N c hwrap
  refine ⟨h1, ?_⟩
  rw [h1]
  have hcomp : (List.range N).map (fun i => backends.get? ((c + 1 + i) % N)) =
      ((List.range N).map (fun i => (c + 1 + i) % N)).map
        (fun j => backends.get? j) := by
    rw [List.map_map]
    rfl
  rw [hcomp]
  exact List.Perm.map _ (range_map_rot_perm N (c + 1))

/-- C4 witness: the round-robin trace on a concrete three-backend pool
with cursor 0. -/
theorem c4_witness :
    (runGetNext 3 (ServerPool.mk [⟨"a", true⟩, ⟨"b", true⟩, ⟨"c", true⟩] 0)).1 =
      (List.range 3).map
        (fun i => (ServerPool.mk [⟨"a", true⟩, ⟨"b", true⟩, ⟨"c", true⟩] 0).backends.get?
          ((0 + 1 + i) % 3)) ∧
    List.Perm (runGetNext 3 (ServerPool.mk [⟨"a", true⟩, ⟨"b", true⟩, ⟨"c", true⟩] 0)).1
      ((List.range 3).map
        (fun j => (ServerPool.mk [⟨"a", true⟩, ⟨"b", true⟩, ⟨"c", true⟩] 0).backends.get? j)) :=
  c4_roundRobin_fair (ServerPool.mk [⟨"a", true⟩, ⟨"b", true⟩, ⟨"c", true⟩] 0) 3 rfl
    (by decide) (by decide) (by decide)

/-- C1 counterexample: a request with a fresh context suffers four
consecutive faults on backend "a"; the fourth handler invocation gives up
on "a" and re-enters the router with the context
`{Attempts := 1, Retry := 3}` — the retries value observed by the next
backend's error handler is 3, not 0, so the newly selected backend "b" is
failed over (marked dead) on its very first fault instead of being
retried in place. -/
theorem c1_counterexample :
    (faultChain "a" 4 ⟨none, none⟩ (ServerPool.mk [⟨"a", true⟩, ⟨"b", true⟩] 0)).1.getLast? =
      some (.failover ⟨some 1, some 3⟩) ∧
    GetRetryFromContext ⟨some 1, some 3⟩ = 3 ∧
    ErrorHandler "b" (ServerPool.mk [⟨"a", false⟩, ⟨"b", true⟩] 0) ⟨some 1, some 3⟩ =
      (.failover ⟨some 2, some 3⟩,
        ServerPool.mk [⟨"a", false⟩, ⟨"b", false⟩] 0) := by
  refine ⟨by decide, by decide, by decide⟩

/-- C1 (amended): when the Retry/Failover Policy abandons a failed backend
and re-enters the Request Router, the new context updates only the
`Attempts` key; the `Retry` value is carried over unchanged (at its
exhausted value ≥ `MAX_RETRIES`), not reset to 0, so the error handler of
the newly selected backend observes the old backend's retries count. -/
theorem c1_failover_keeps_retries (u : String) (s : ServerPool) (c : Ctx)
    (h : ¬ GetRetryFromContext c < MAX_RETRIES) :
    ErrorHandler u s c =
      (.failover (withAttempts c (GetAttemptsFromContext c + 1)),
        s.MarkBackendStatus u false) ∧
    GetRetryFromContext (withAttempts c (GetAttemptsFromContext c + 1)) =
      GetRetryFromContext c := by
  constructor
  · simp [ErrorHandler, h]
  · rfl

/-- C1 witness: the failover context built after backend "b" exhausts its
retries still carries `Retry = 3`. -/
theorem c1_witness :
    ErrorHandler "b" (ServerPool.mk [⟨"a", false⟩, ⟨"b", true⟩] 0) ⟨some 1, some 3⟩ =
      (.failover (withAttempts ⟨some 1, some 3⟩
        (GetAttemptsFromContext ⟨some 1, some 3⟩ + 1)),
        (ServerPool.mk [⟨"a", false⟩, ⟨"b", true⟩] 0).MarkBackendStatus "b" false) ∧
    GetRetryFromContext (withAttempts ⟨some 1, some 3⟩
      (GetAttemptsFromContext ⟨some 1, some 3⟩ + 1)) =
      GetRetryFromContext ⟨some 1, some 3⟩ :=
  c1_failover_keeps_retries "b" (ServerPool.mk [⟨"a", false⟩, ⟨"b", true⟩] 0)
    ⟨some 1, some 3⟩ (by decide)

/-- C5 counterexample: backend "a" suffers exactly `MAX_RETRIES` = 3
consecutive transient faults starting from a fresh request context; the
handler issues three in-place retries and the pool is unchanged — backend
"a" is still alive, refuting "retried in place `MAX_RETRIES` times and
only then marked dead" for exactly `MAX_RETRIES` faults. -/
theorem c5_counterexample :
    faultChain "a" MAX_RETRIES ⟨none, none⟩ (ServerPool.mk [⟨"a", true⟩, ⟨"b", true⟩] 0) =
      ([.retrySame ⟨none, some 1⟩, .retrySame ⟨none, some 2⟩, .retrySame ⟨none, some 3⟩],
        ServerPool.mk [⟨"a", true⟩, ⟨"b", true⟩] 0) := by
  decide

/-- C5 (amended): on a chain of error-handler invocations for one backend
starting from a request context with retries 0: while the retries counter
is below `MAX_RETRIES` the same backend is re-invoked with a new context
carrying `retries+1` and the backend is not marked dead; `MAX_RETRIES` or
fewer consecutive faults never mark it dead, and on the
(`MAX_RETRIES`+1)-th consecutive fault — after exactly `MAX_RETRIES`
in-place retries — the backend is marked dead. -/
theorem c5_retry_before_failover (u : String) (s : ServerPool) (c : Ctx)
    (h : GetRetryFromContext c = 0) :
    (∀ c', GetRetryFromContext c' < MAX_RETRIES →
      ErrorHandler u s c' =
        (.retrySame (withRetry c' (GetRetryFromContext c' + 1)), s)) ∧
    (∀ n, n ≤ MAX_RETRIES →
      (faultChain u n c s).2 = s ∧
      (∀ a ∈ (faultChain u n c s).1, ∃ c', a = .retrySame c')) ∧
    (faultChain u (MAX_RETRIES + 1) c s).1 =
      [.retrySame (withRetry c 1), .retrySame (withRetry c 2), .retrySame (withRetry c 3),
        .failover (withAttempts (withRetry c 3) (GetAttemptsFromContext c + 1))] ∧
    (faultChain u (MAX_RETRIES + 1) c s).2 = s.MarkBackendStatus u false := by
  have hstep : ∀ c', GetRetryFromContext c' < MAX_RETRIES →
      ErrorHandler u s c' =
        (.retrySame (withRetry c' (GetRetryFromContext c' + 1)), s) := by
    intro c' hc'
    simp [ErrorHandler, hc']
  have hr : ∀ m : Nat, GetRetryFromContext (withRetry c m) = m := fun _ => rfl
  have hcollapse : ∀ m n : Nat, withRetry (withRetry c m) n = withRetry c n :=
    fun _ _ => rfl
  have hs1 : ErrorHandler u s c = (.retrySame (withRetry c 1), s) := by
    have := hstep c (by rw [h]; decide)
    rwa [h] at this
  have hs2 : ErrorHandler u s (withRetry c 1) = (.retrySame (withRetry c 2), s) := by
    have := hstep (withRetry c 1) (by rw [hr]; decide)
    rwa [hr, hcollapse] at this
  have hs3 : ErrorHandler u s (withRetry c 2) = (.retrySame (withRetry c 3), s) := by
    have := hstep (withRetry c 2) (by rw [hr]; decide)
    rwa [hr, hcollapse] at this
  have hs4 : ErrorHandler u s (withRetry c 3) =
      (.failover (withAttempts (withRetry c 3) (GetAttemptsFromContext c + 1)),
        s.MarkBackendStatus u false) := by
    have h4 : ¬ GetRetryFromContext (withRetry c 3) < MAX_RETRIES := by
      rw [hr]
      decide
    have hatt : GetAttemptsFromContext (withRetry c 3) = GetAttemptsFromContext c := rfl
    simp [ErrorHandler, h4, hatt]
  have e0 : faultChain u 0 c s = ([], s) := rfl
  have e1 : faultChain u 1 c s = ([.retrySame (withRetry c 1)], s) := by
    simp [faultChain, hs1]
  have e2 : faultChain u 2 c s =
      ([.retrySame (withRetry c 1), .retrySame (withRetry c 2)], s) := by
    simp [faultChain, hs1, hs2]
  have e3 : faultChain u 3 c s =
      ([.retrySame (withRetry c 1), .retrySame (withRetry c 2),
        .retrySame (withRetry c 3)], s) := by
    simp [faultChain, hs1, hs2, hs3]
  have e4 : faultChain u 4 c s =
      ([.retrySame (withRetry c 1), .retrySame (withRetry c 2),
        .retrySame (withRetry c 3),
        .failover (withAttempts (withRetry c 3) (GetAttemptsFromContext c + 1))],
        s.MarkBackendStatus u false) := by
    simp [faultChain, hs1, hs2, hs3, hs4]
  refine ⟨hstep, ?_, ?_, ?_⟩
  · intro n hn
    have hn3 : n ≤ 3 := hn
    clear hn
    interval_cases n
    · exact ⟨by rw [e0], by rw [e0]; intro a ha; cases ha⟩
    · refine ⟨by rw [e1], ?_⟩
      rw [e1]
      intro a ha
      rcases List.mem_singleton.mp ha with rfl
      exact ⟨_, rfl⟩
    · refine ⟨by rw [e2], ?_⟩
      rw [e2]
      intro a ha
      rcases List.mem_cons.mp ha with rfl | ha
      · exact ⟨_, rfl⟩
      · rcases List.mem_singleton.mp ha with rfl
        exact ⟨_, rfl⟩
    · refine ⟨by rw [e3], ?_⟩
      rw [e3]
      intro a ha
      rcases List.mem_cons.mp ha with rfl | ha
      · exact ⟨_, rfl⟩
      · rcases List.mem_cons.mp ha with rfl | ha
        · exact ⟨_, rfl⟩
        · rcases List.mem_singleton.mp ha with rfl
          exact ⟨_, rfl⟩
  · rw [show MAX_RETRIES + 1 = 4 from rfl, e4]
  · rw [show MAX_RETRIES + 1 = 4 from rfl, e4]

/-- C5 witness: the amended retry-before-failover behaviour evaluated for
backend "a" on a concrete pool from the empty request context. -/
theorem c5_witness :
    (∀ c', GetRetryFromContext c' < MAX_RETRIES →
      ErrorHandler "a" (ServerPool.mk [⟨"a", true⟩] 0) c' =
        (.retrySame (withRetry c' (GetRetryFromContext c' + 1)),
          ServerPool.mk [⟨"a", true⟩] 0)) ∧
    (∀ n, n ≤ MAX_RETRIES →
      (faultChain "a" n ⟨none, none⟩ (ServerPool.mk [⟨"a", true⟩] 0)).2 =
        ServerPool.mk [⟨"a", true⟩] 0 ∧
      (∀ a ∈ (faultChain "a" n ⟨none, none⟩ (ServerPool.mk [⟨"a", true⟩] 0)).1,
        ∃ c', a = .retrySame c')) ∧
    (faultChain "a" (MAX_RETRIES + 1) ⟨none, none⟩ (ServerPool.mk [⟨"a", true⟩] 0)).1 =
      [.retrySame (withRetry ⟨none, none⟩ 1), .retrySame (withRetry ⟨none, none⟩ 2),
        .retrySame (withRetry ⟨none, none⟩ 3),
        .failover (withAttempts (withRetry ⟨none, none⟩ 3)
          (GetAttemptsFromContext ⟨none, none⟩ + 1))] ∧
    (faultChain "a" (MAX_RETRIES + 1) ⟨none, none⟩ (ServerPool.mk [⟨"a", true⟩] 0)).2 =
      (ServerPool.mk [⟨"a", true⟩] 0).MarkBackendStatus "a" false :=
  c5_retry_before_failover "a" (ServerPool.mk [⟨"a", true⟩] 0) ⟨none, none⟩ (by decide)

end LoadBalancerGo
